import Mathlib

/-
Verification of the build-orchestration core of the caxe C/C++ project
manager (crate `cx`). The definitions below are a shallow embedding of the
Rust sources: pure string manipulation is transcribed directly, and the
effectful parts (filesystem, subprocesses, git) are modelled by threading an
explicit `World` state together with oracles for the outcome of each
subprocess (clone success, build-script exit status, compile and test-run
exit status). Each oracle stands for one blocking subprocess wait in the
source.
-/

namespace Caxe

/-! ## String helpers

Transcriptions of the Rust standard-library string operations used by the
sources (`str::contains`, `str::starts_with` style prefix tests,
`str::split(char)`, `str::replace(".git", "")`). They are written over
`List Char` so that every theorem below can be evaluated by the kernel. -/

/-- Does the pattern `pat` occur as a contiguous substring of `l`?
Embeds Rust `str::contains`. -/
def subOccurs (pat : List Char) : List Char → Bool
  | [] => pat.isEmpty
  | a :: as => pat.isPrefixOf (a :: as) || subOccurs pat as

/-- Rust `s.contains(pat)`. -/
def strContains (s pat : String) : Bool := subOccurs pat.data s.data

/-- Does `s` start with `pat`? -/
def strStarts (pat s : String) : Bool := pat.data.isPrefixOf s.data

/-- Rust `s.split(c)`: the list of (possibly empty) segments of `l`
between occurrences of the separator character `c`. -/
def splitCharList (c : Char) : List Char → List (List Char)
  | [] => [[]]
  | a :: as =>
    let r := splitCharList c as
    if a == c then [] :: r
    else
      match r with
      | [] => [[a]]
      | h :: t => (a :: h) :: t

/-- Rust `s.replace(".git", "")`: remove every (left-to-right,
non-overlapping) occurrence of the four-character pattern `.git`. -/
def removeGitAll : List Char → List Char
  | '.' :: 'g' :: 'i' :: 't' :: rest => removeGitAll rest
  | a :: rest => a :: removeGitAll rest
  | [] => []

/-! ## Data model (src/src/config.rs) -/

/-- `BuildConfig` from src/src/config.rs. -/
structure BuildConfig where
  compiler : Option String
  cflags : Option (List String)
  libs : Option (List String)

/-- The tagged dependency spec from src/src/config.rs (`#[serde(untagged)]`). -/
inductive Dependency where
  | Simple (url : String)
  | Complex (git : String) (branch : Option String)
      (build : Option String) (output : Option String)

/-- `Dependency::get_url` from src/src/config.rs. -/
def Dependency.get_url : Dependency → String
  | Dependency.Simple url => url
  | Dependency.Complex git _ _ _ => git

/-- `PackageConfig` from src/src/config.rs. -/
structure PackageConfig where
  name : String
  version : String
  edition : String

/-- `CxConfig` from src/src/config.rs.  The Rust `HashMap<String, Dependency>`
is modelled as an association list giving the iteration sequence. -/
structure CxConfig where
  package : PackageConfig
  dependencies : Option (List (String × Dependency))
  build : Option BuildConfig

/-! ## Lock store (src/src/lock.rs) -/

/-- `PackageLock` from src/src/lock.rs. -/
structure PackageLock where
  git : String
  rev : String

/-- `LockFile` from src/src/lock.rs; the `BTreeMap` is modelled as an
association list in its (deterministic) iteration order. -/
structure LockFile where
  packages : List (String × PackageLock)

/-- The full TOML rendering produced by `toml::to_string_pretty` in
`LockFile::save`: a function of the whole map only. -/
def LockFile.serialize (lf : LockFile) : String :=
  String.join (lf.packages.map (fun e =>
    "[package." ++ e.fst ++ "]\ngit = " ++ e.snd.git ++ "\nrev = " ++ e.snd.rev ++ "\n"))

/-- `LockFile::insert` from src/src/lock.rs: `BTreeMap::insert` replaces any
existing entry for the key. -/
def LockFile.insert (lf : LockFile) (name git rev : String) : LockFile :=
  { packages := (lf.packages.filter (fun p => !(p.fst == name)))
      ++ [(name, { git := git, rev := rev })] }

/-! ## World state and subprocess oracles for dependency fetching -/

/-- The mutable state touched by src/src/deps.rs: which cache directories
exist, which files exist inside them, and the content of `cx.lock`
(`none` when the file is absent). -/
structure World where
  cacheDirs : List String
  files : List String
  lockContent : Option String

/-- `LockFile::save` (src/src/lock.rs lines 29-33): `fs::write` replaces the
whole file with the serialization of the full map. -/
def LockFile.save (lf : LockFile) (w : World) : World :=
  { w with lockContent := some lf.serialize }

/-- Oracles for the subprocesses spawned by `fetch_dependencies`:
`cloneOk url path` is the outcome of `git2::Repository::clone`, and
`runScript cmd dir` is the build-script invocation, returning its exit
success together with the files it creates in the cache. -/
structure FetchEnv where
  cloneOk : String → String → Bool
  runScript : String → String → Bool × List String

/-- The cache root `~/.cx/cache` (src/src/deps.rs lines 14-15). -/
def cacheRoot : String := "~/.cx/cache"

/-- `cache_dir.join(name)` (src/src/deps.rs line 26). -/
def libPathOf (name : String) : String := cacheRoot ++ "/" ++ name

/-- The three conventional include candidates pushed for a dependency
(src/src/deps.rs lines 96-98). -/
def includeCandidates (libPath : String) : List String :=
  ["-I" ++ libPath, "-I" ++ libPath ++ "/include", "-I" ++ libPath ++ "/src"]

/-- The clone step of `fetch_dependencies` (src/src/deps.rs lines 29-45):
a cache hit skips the network entirely; otherwise one clone is attempted,
and on failure the dependency is skipped (`continue`).  Returns the world
after the step (`none` when the clone failed) and the number of clone
attempts performed (0 on a cache hit, 1 otherwise). -/
def cloneStep (env : FetchEnv) (w : World) (name url : String) :
    Option World × Nat :=
  if w.cacheDirs.contains name then (some w, 0)
  else if env.cloneOk url (libPathOf name) then
    (some { w with cacheDirs := name :: w.cacheDirs }, 1)
  else (none, 1)

/-- The build-script step of `fetch_dependencies` (src/src/deps.rs lines
47-80): only a `Complex` dependency with a declared script runs it, and only
when no declared output artifact already exists; a nonzero exit makes the
whole dependency be skipped (`continue`), modelled as `none`. -/
def scriptStep (env : FetchEnv) (w : World) (name : String) :
    Dependency → Option World
  | Dependency.Complex _ _ (some cmd) output =>
    let outputFile := output.getD ""
    let shouldBuild :=
      if outputFile == "" then true
      else !(w.files.contains (libPathOf name ++ "/" ++ outputFile))
    if shouldBuild then
      let r := env.runScript cmd (libPathOf name)
      if r.fst then some { w with files := w.files ++ r.snd } else none
    else some w
  | _ => some w

/-- The link-artifact step (src/src/deps.rs lines 82-93): push the declared
output artifact onto the link flags when it exists, warn otherwise. -/
def linkStep (w : World) (name : String) : Dependency → List String
  | Dependency.Complex _ _ _ (some outFile) =>
    if w.files.contains (libPathOf name ++ "/" ++ outFile)
    then [libPathOf name ++ "/" ++ outFile] else []
  | _ => []

/-- Aggregate result of `fetch_dependencies`:
the two returned flag vectors, the final world, and the number of
`Repository::clone` attempts performed (the network accesses). -/
structure FetchOutcome where
  includeFlags : List String
  linkFlags : List String
  world : World
  cloneCount : Nat

/-- The body of the per-dependency loop of `fetch_dependencies`
(src/src/deps.rs lines 25-99): clone step, then build-script step, then
link-artifact step, then the three include candidates.  A failed clone or a
failed build script contributes no flags at all (the `continue` statements
come before the pushes). -/
def processDep (env : FetchEnv) (w : World) (name : String) (dep : Dependency) :
    FetchOutcome :=
  match cloneStep env w name dep.get_url with
  | (none, n) => ⟨[], [], w, n⟩
  | (some w1, n) =>
    match scriptStep env w1 name dep with
    | none => ⟨[], [], w1, n⟩
    | some w2 => ⟨includeCandidates (libPathOf name), linkStep w2 name dep, w2, n⟩

/-- `fetch_dependencies` (src/src/deps.rs lines 11-102): the sequential loop
over the declared dependencies, concatenating the per-dependency flag
contributions.  Note that the function never reads or writes `cx.lock`. -/
def fetch_dependencies (env : FetchEnv) :
    List (String × Dependency) → World → FetchOutcome
  | [], w => ⟨[], [], w, 0⟩
  | (name, dep) :: rest, w =>
    let r := processDep env w name dep
    let rr := fetch_dependencies env rest r.world
    ⟨r.includeFlags ++ rr.includeFlags, r.linkFlags ++ rr.linkFlags,
      rr.world, r.cloneCount + rr.cloneCount⟩

/-! ## Adding dependencies (src/src/deps.rs lines 104-155) -/

/-- Name derivation for a URL-shaped `cx add` argument (src/src/deps.rs
lines 111-115): `lib_input.split('/').last().unwrap_or("unknown").replace(".git", "")`. -/
def deriveName (s : String) : String :=
  String.mk (removeGitAll (((splitCharList '/' s.data).getLast?).getD "unknown".data))

/-- The argument parsing of `add_dependency` (src/src/deps.rs lines
110-126): a string containing `http` or `git@` is taken as a full URL and
its name derived from the last path segment; otherwise the input must be a
two-segment `user/repo` shorthand, expanded to a GitHub URL.  `none` stands
for the invalid-format early return. -/
def parseAddInput (lib_input : String) : Option (String × String) :=
  if strContains lib_input "http" || strContains lib_input "git@" then
    some (deriveName lib_input, lib_input)
  else
    let parts := (splitCharList '/' lib_input.data).map String.mk
    if parts.length == 2 then
      some ((parts.get? 1).getD "", "https://github.com/" ++ lib_input ++ ".git")
    else none

/-- `HashMap::contains_key` over the modelled dependency map. -/
def depsContainsKey (deps : List (String × Dependency)) (name : String) : Bool :=
  deps.any (fun p => p.fst == name)

/-- Observable outcome of `add_dependency`: the manifest file state after
the call (`none` when `cx.toml` is absent), whether `fs::write("cx.toml", _)`
was executed, and whether the trailing `fetch_dependencies` call ran. -/
structure AddResult where
  manifest : Option CxConfig
  wroteFile : Bool
  fetched : Bool

/-- `add_dependency` (src/src/deps.rs lines 104-155) as a transformer of the
manifest state: missing manifest, invalid format, and duplicate name all
return early without writing; otherwise the `Simple` spec is inserted, the
manifest rewritten, and a fetch triggered. -/
def add_dependency (lib_input : String) (m : Option CxConfig) : AddResult :=
  match m with
  | none => ⟨none, false, false⟩
  | some cfg =>
    match parseAddInput lib_input with
    | none => ⟨some cfg, false, false⟩
    | some nu =>
      let deps := cfg.dependencies.getD []
      if depsContainsKey deps nu.fst then ⟨some cfg, false, false⟩
      else
        ⟨some { cfg with
            dependencies := some (deps ++ [(nu.fst, Dependency.Simple nu.snd)]) },
          true, true⟩

/-- Spec-side name derivation, following the specification's words: the
substring of the identifier after the last `/` (the whole identifier when no
`/` occurs), with every occurrence of `.git` removed. -/
def specDerivedName (s : String) : String :=
  String.mk (removeGitAll ((s.data.reverse.takeWhile (fun a => !(a == '/'))).reverse))

/-! ## Compiler fallback (src/src/build/utils.rs lines 79-131) -/

/-- The inputs consulted by `get_compiler`: the result of
`get_toolchain` (`some` carries `tc.cxx_path`, `none` is the error case —
the toolchain resolver itself lives outside the modelled core), the `CXX`
and `CC` environment variables, the `is_command_available` PATH probe, and
the target platform. -/
structure CompilerEnv where
  toolchain : Option String
  envCXX : Option String
  envCC : Option String
  available : String → Bool
  isWindows : Bool

/-- `get_compiler` (src/src/build/utils.rs lines 79-131): toolchain
detection first, then the manifest `build.compiler`, then `CXX`/`CC`, then
PATH probes in a fixed order, and finally the hardcoded `clang++`/`clang`
fallback returned without any invocability check. -/
def get_compiler (env : CompilerEnv) (config : CxConfig) (has_cpp : Bool) : String :=
  match env.toolchain with
  | some path => path
  | none =>
    match config.build.bind (fun b => b.compiler) with
    | some c => c
    | none =>
      if has_cpp then
        match env.envCXX with
        | some v => v
        | none =>
          if env.available "clang++" then "clang++"
          else if env.available "g++" then "g++"
          else if env.isWindows && env.available "cl" then "cl"
          else "clang++"
      else
        match env.envCC with
        | some v => v
        | none =>
          if env.available "clang" then "clang"
          else if env.available "gcc" then "gcc"
          else if env.isWindows && env.available "cl" then "cl"
          else "clang"

/-! ## Test runner (src/src/build/test.rs) -/

/-- One entry produced by the `WalkDir` traversal of the test directory:
its file stem and its extension (`none` when the path has no extension). -/
structure DirEntry where
  stem : String
  ext : Option String

/-- The extension classification of src/src/build/test.rs lines 55-58. -/
def isCppEntry (e : DirEntry) : Bool :=
  (e.ext == some "cpp") || (e.ext == some "cc") || (e.ext == some "cxx")

/-- The `c` extension test of src/src/build/test.rs line 58. -/
def isCEntry (e : DirEntry) : Bool := e.ext == some "c"

/-- Test discovery (src/src/build/test.rs lines 52-63): keep the entries
whose extension marks a C or C++ translation unit, in walk order, paired
with their `is_cpp` flag. -/
def discover (entries : List DirEntry) : List (DirEntry × Bool) :=
  entries.filterMap (fun e =>
    if isCppEntry e then some (e, true)
    else if isCEntry e then some (e, false)
    else none)

/-- `compiler.contains("cl.exe") || compiler == "cl"`
(src/src/build/test.rs line 83). -/
def isMsvcCompiler (compiler : String) : Bool :=
  strContains compiler "cl.exe" || compiler == "cl"

/-- The compile argument list built in src/src/build/test.rs lines 84-132,
in push order.  `extraCflags` are the dependency-provided flags, `cfgCflags`
and `cfgLibs` come from `build.cflags` and `build.libs` of the manifest
(empty lists when absent), `depLibs` are the dependency link artifacts. -/
def buildTestArgs (compiler path outputBin edition : String)
    (includePaths extraCflags cfgCflags depLibs cfgLibs : List String) :
    List String :=
  if isMsvcCompiler compiler then
    "/nologo" :: "/EHsc" :: path :: ("/Fe" ++ outputBin) :: ("/std:" ++ edition) ::
      (includePaths.map (fun p => "/I" ++ p)
        ++ extraCflags ++ cfgCflags
        ++ "/link" :: (depLibs ++ cfgLibs.map (fun l => l ++ ".lib")))
  else
    path :: "-o" :: outputBin :: ("-std=" ++ edition) ::
      (includePaths.map (fun p => "-I" ++ p)
        ++ extraCflags ++ cfgCflags
        ++ depLibs ++ cfgLibs.map (fun l => "-l" ++ l))

/-- Subprocess oracles for `run_tests`, indexed by the position of the test
file in discovery order: `compiles i` is whether the i-th compile produces a
binary (a compile failure and a compiler spawn error are both `false`), and
`runExit i` is the i-th test binary's exit code (`none` when the binary
could not be launched). -/
structure TestEnv where
  compiles : Nat → Bool
  runExit : Nat → Option Int

/-- Result of the sequential phase 2 loop of `run_tests`
(src/src/build/test.rs lines 165-220). -/
structure Phase2Out where
  passed : Nat
  total : Nat
  execIndices : List Nat

/-- The phase 2 loop (src/src/build/test.rs lines 169-220): every element of
`compiled_results` bumps `total`; only elements that produced a binary are
executed, in list order; a zero exit bumps `passed`. -/
def phase2 (env : TestEnv) : List (Nat × Bool) → Phase2Out
  | [] => ⟨0, 0, []⟩
  | (i, ok) :: rest =>
    let r := phase2 env rest
    if ok then
      ⟨(if env.runExit i == some 0 then 1 else 0) + r.passed, r.total + 1,
        i :: r.execIndices⟩
    else ⟨r.passed, r.total + 1, r.execIndices⟩

/-- Observable outcome of `run_tests` (src/src/build/test.rs lines 13-232):
the tallies of the final summary, the number of compile invocations of
phase 1, the discovery-order indices that were executed in phase 2, whether
the `ALL TESTS PASSED` banner was printed (line 225), and whether the
function returned `Ok(())` — which it does on every path that reaches the
summary, so the process exit status is 0. -/
structure TestReport where
  passed : Nat
  total : Nat
  compileAttempts : Nat
  execIndices : List Nat
  banner : Bool
  exitSuccess : Bool

/-- `run_tests` over the discovered test directory contents: phase 1 maps
every discovered file to one compile attempt (`rayon` `par_iter().map()`
followed by `collect`, which yields the results in discovery order), then
phase 2 runs sequentially.  The final `Ok(())` of the source is the
unconditional `exitSuccess := true`. -/
def run_tests (env : TestEnv) (entries : List DirEntry) : TestReport :=
  let files := discover entries
  let compiled : List (Nat × Bool) :=
    (List.range files.length).map (fun i => (i, env.compiles i))
  let r := phase2 env compiled
  { passed := r.passed
    total := r.total
    compileAttempts := compiled.length
    execIndices := r.execIndices
    banner := decide (0 < r.total) && (r.passed == r.total)
    exitSuccess := true }

/-! ## Event trace of the two test phases

`rayon`'s `par_iter().map(..).collect()` runs the compile closures in a
scheduler-chosen order but joins all of them and collects the results in
input order; the phase 2 loop then runs strictly sequentially.  The trace
below makes the schedule explicit: `sched` is the completion order of the
parallel compiles, a permutation of the discovery indices. -/

/-- One observable subprocess event of `run_tests`. -/
inductive TEvent where
  | compileEv (i : Nat)
  | execEv (i : Nat)
deriving DecidableEq

/-- Is the event a test-binary execution? -/
def TEvent.isExecEv : TEvent → Bool
  | TEvent.execEv _ => true
  | TEvent.compileEv _ => false

/-- The subprocess event trace of one `run_tests` call whose parallel
compiles complete in the order `sched`: all compiles (in schedule order,
joined by `collect`), then the sequential executions of phase 2. -/
def testTrace (env : TestEnv) (entries : List DirEntry) (sched : List Nat) :
    List TEvent :=
  sched.map TEvent.compileEv
    ++ (run_tests env entries).execIndices.map TEvent.execEv

/-- A command-line token free of dialect markers: it does not start with
`-std=`, is not `/EHsc`, and does not start with `/std:`. -/
def cleanTok (t : String) : Bool :=
  !(strStarts "-std=" t) && !(t == "/EHsc") && !(strStarts "/std:" t)

/-! ## Helper lemmas -/

theorem data_append (a b : String) : (a ++ b).data = a.data ++ b.data := by
  cases a; cases b; rfl

theorem cleanTok_split (t : String) (h : cleanTok t = true) :
    strStarts "-std=" t = false ∧ t ≠ "/EHsc" ∧ strStarts "/std:" t = false := by
  have h2 := h
  simp only [cleanTok, Bool.and_eq_true, Bool.not_eq_true'] at h2
  refine ⟨h2.1.1, ?_, h2.2⟩
  intro he
  subst he
  simp at h2

theorem scriptStep_cacheDirs (env : FetchEnv) (w : World) (name : String)
    (dep : Dependency) (w2 : World) (h : scriptStep env w name dep = some w2) :
    w2.cacheDirs = w.cacheDirs := by
  cases dep with
  | Simple url =>
    simp [scriptStep] at h
    rw [← h]
  | Complex g b bc out =>
    cases bc with
    | none =>
      simp [scriptStep] at h
      rw [← h]
    | some cmd =>
      simp only [scriptStep] at h
      repeat' split at h
      all_goals simp_all
      all_goals rw [← h]

theorem processDep_cached (env : FetchEnv) (w : World) (name : String)
    (dep : Dependency) (h : w.cacheDirs.contains name = true) :
    (processDep env w name dep).cloneCount = 0
    ∧ (processDep env w name dep).world.cacheDirs = w.cacheDirs := by
  unfold processDep cloneStep
  rw [h]
  simp only [if_true]
  rcases hs : scriptStep env w name dep with _ | w2
  · simp [hs]
  · simp [hs, scriptStep_cacheDirs env w name dep w2 hs]

/-! ## Claim theorems -/

/-- C1: the specification states that every successful clone writes a lock
entry and that the lock file is rewritten in full after a successful fetch.
`fetch_dependencies` as implemented (src/src/deps.rs lines 11-102) never
reads, inserts into, or saves the lock store: on a dependency whose clone
succeeds, the cache directory is created and the flags emitted, but the lock
file content is left untouched.  `LockFile::save` itself, when called, does
rewrite the file in full (last conjunct) — it is simply never invoked from
the fetch path, although src/src/lock.rs implements the full store and the
rest of the crate (`cx update`, the three-tuple callers in
src/src/build/test.rs and src/src/checker/mod.rs) expects the lock-aware
fetch, so the fetch implementation is the slip. -/
theorem fetch_writes_no_lock :
    ((fetch_dependencies ⟨fun _ _ => true, fun _ _ => (true, [])⟩
        [("mylib", Dependency.Simple "https://example.com/mylib.git")]
        ⟨[], [], none⟩).cloneCount = 1)
    ∧ ((fetch_dependencies ⟨fun _ _ => true, fun _ _ => (true, [])⟩
        [("mylib", Dependency.Simple "https://example.com/mylib.git")]
        ⟨[], [], none⟩).world.cacheDirs = ["mylib"])
    ∧ ((fetch_dependencies ⟨fun _ _ => true, fun _ _ => (true, [])⟩
        [("mylib", Dependency.Simple "https://example.com/mylib.git")]
        ⟨[], [], none⟩).world.lockContent = none)
    ∧ (∀ (lf : LockFile) (w : World),
        (LockFile.save lf w).lockContent = some lf.serialize) :=
  ⟨rfl, rfl, rfl, fun _ _ => rfl⟩

/-- C7: for every dependency whose cache directory already exists,
`fetch_dependencies` performs no clone attempt at all (src/src/deps.rs line
29 guards the clone on directory absence), so a fetch whose dependencies are
all cached performs zero network clones. -/
theorem fetch_cached_no_clones (env : FetchEnv)
    (deps : List (String × Dependency)) (w : World)
    (h : ∀ p ∈ deps, w.cacheDirs.contains p.fst = true) :
    (fetch_dependencies env deps w).cloneCount = 0 := by
  induction deps generalizing w with
  | nil => rfl
  | cons hd tl ih =>
    obtain ⟨name, dep⟩ := hd
    have hh := h (name, dep) (by simp)
    obtain ⟨hc, hw⟩ := processDep_cached env w name dep hh
    simp only [fetch_dependencies, hc, Nat.zero_add]
    apply ih
    intro p hp
    rw [hw]
    exact h p (List.mem_cons_of_mem _ hp)

/-- Witness for C7 at a concrete cached dependency (the clone oracle is
even set to fail, showing no clone is consulted). -/
theorem fetch_cached_no_clones_witness :
    (fetch_dependencies ⟨fun _ _ => false, fun _ _ => (true, [])⟩
      [("a", Dependency.Simple "u")] ⟨["a"], [], none⟩).cloneCount = 0 :=
  fetch_cached_no_clones ⟨fun _ _ => false, fun _ _ => (true, [])⟩
    [("a", Dependency.Simple "u")] ⟨["a"], [], none⟩ (by decide)

/-- C3 counterexample: a dependency whose cache directory is present (cache
hit) and whose declared build script exits nonzero contributes no include
flags at all — the `continue` of src/src/deps.rs line 77 runs before the
include pushes of lines 96-98 — contradicting the claim that the three
include candidates are appended with only the link artifact withheld. -/
theorem include_flags_script_failure_counterexample :
    ((fetch_dependencies ⟨fun _ _ => true, fun _ _ => (false, [])⟩
        [("foo", Dependency.Complex "https://example.com/foo.git" none (some "make") none)]
        ⟨["foo"], [], none⟩).includeFlags = [])
    ∧ ((fetch_dependencies ⟨fun _ _ => true, fun _ _ => (false, [])⟩
        [("foo", Dependency.Complex "https://example.com/foo.git" none (some "make") none)]
        ⟨["foo"], [], none⟩).world.cacheDirs = ["foo"]) :=
  ⟨rfl, rfl⟩

/-- C3 (amended): for a dependency whose clone step succeeds (fresh clone or
cache hit), the three include candidates are appended exactly when the
build-script phase does not fail (no script declared, script skipped because
the declared artifact exists, or script exits zero); they are appended
without consulting the filesystem, hence regardless of whether the
directories exist.  When the declared build script exits nonzero the
dependency contributes neither include nor link flags, and resolution
continues with the remaining dependencies. -/
theorem include_flags_amended (env : FetchEnv) (w w1 : World) (name : String)
    (dep : Dependency) (rest : List (String × Dependency))
    (hclone : (cloneStep env w name dep.get_url).fst = some w1) :
    (scriptStep env w1 name dep = none →
        (processDep env w name dep).includeFlags = []
        ∧ (processDep env w name dep).linkFlags = []
        ∧ (fetch_dependencies env ((name, dep) :: rest) w).includeFlags
            = (fetch_dependencies env rest w1).includeFlags)
    ∧ (∀ w2, scriptStep env w1 name dep = some w2 →
        (processDep env w name dep).includeFlags
          = includeCandidates (libPathOf name)) := by
  rcases hc : cloneStep env w name dep.get_url with ⟨o, n⟩
  rw [hc] at hclone
  have ho : o = some w1 := hclone
  subst ho
  constructor
  · intro hs
    have hp : processDep env w name dep = ⟨[], [], w1, n⟩ := by
      simp only [processDep, hc, hs]
    refine ⟨by rw [hp], by rw [hp], ?_⟩
    simp only [fetch_dependencies, hp]
    simp
  · intro w2 hs
    simp only [processDep, hc, hs]

/-- Witness for C3 (amended) at a concrete cached dependency with a failing
build script: the failure branch applies and the dependency contributes no
flags. -/
theorem include_flags_amended_witness :
    (scriptStep ⟨fun _ _ => true, fun _ _ => (false, [])⟩ ⟨["foo"], [], none⟩ "foo"
        (Dependency.Complex "https://example.com/foo.git" none (some "make") none) = none →
      (processDep ⟨fun _ _ => true, fun _ _ => (false, [])⟩ ⟨["foo"], [], none⟩ "foo"
          (Dependency.Complex "https://example.com/foo.git" none (some "make") none)).includeFlags = []
      ∧ (processDep ⟨fun _ _ => true, fun _ _ => (false, [])⟩ ⟨["foo"], [], none⟩ "foo"
          (Dependency.Complex "https://example.com/foo.git" none (some "make") none)).linkFlags = []
      ∧ (fetch_dependencies ⟨fun _ _ => true, fun _ _ => (false, [])⟩
          [("foo", Dependency.Complex "https://example.com/foo.git" none (some "make") none)]
          ⟨["foo"], [], none⟩).includeFlags
        = (fetch_dependencies ⟨fun _ _ => true, fun _ _ => (false, [])⟩ []
            ⟨["foo"], [], none⟩).includeFlags)
    ∧ (∀ w2, scriptStep ⟨fun _ _ => true, fun _ _ => (false, [])⟩ ⟨["foo"], [], none⟩ "foo"
          (Dependency.Complex "https://example.com/foo.git" none (some "make") none) = some w2 →
        (processDep ⟨fun _ _ => true, fun _ _ => (false, [])⟩ ⟨["foo"], [], none⟩ "foo"
            (Dependency.Complex "https://example.com/foo.git" none (some "make") none)).includeFlags
          = includeCandidates (libPathOf "foo")) :=
  include_flags_amended ⟨fun _ _ => true, fun _ _ => (false, [])⟩
    ⟨["foo"], [], none⟩ ⟨["foo"], [], none⟩ "foo"
    (Dependency.Complex "https://example.com/foo.git" none (some "make") none) [] rfl

/-- C8: `add_dependency` rejects a dependency name already present in the
manifest (src/src/deps.rs lines 138-141): the early return happens before
`fs::write`, so the manifest file is not rewritten and no fetch runs. -/
theorem add_duplicate_rejected (input name url : String) (cfg : CxConfig)
    (hp : parseAddInput input = some (name, url))
    (hdup : depsContainsKey (cfg.dependencies.getD []) name = true) :
    add_dependency input (some cfg) = ⟨some cfg, false, false⟩ := by
  simp only [add_dependency, hp, hdup, if_true]

/-- Witness for C8: adding `user/foo` to a manifest that already has a
dependency named `foo` leaves the manifest unchanged. -/
theorem add_duplicate_rejected_witness :
    add_dependency "user/foo"
      (some ⟨⟨"p", "0.1.0", "c++20"⟩, some [("foo", Dependency.Simple "u")], none⟩)
      = ⟨some ⟨⟨"p", "0.1.0", "c++20"⟩, some [("foo", Dependency.Simple "u")], none⟩,
          false, false⟩ :=
  add_duplicate_rejected "user/foo" "foo" "https://github.com/user/foo.git"
    ⟨⟨"p", "0.1.0", "c++20"⟩, some [("foo", Dependency.Simple "u")], none⟩ rfl rfl

/-- C9: `get_compiler` (src/src/build/utils.rs lines 79-131) is total and
reports no error: when toolchain detection fails, the manifest declares no
compiler, the dialect-matching environment variable is unset and every PATH
probe fails, it returns the literal `clang++` for a C++ unit and `clang` for
a C unit, without any invocability check on the returned name. -/
theorem get_compiler_fallback (env : CompilerEnv) (config : CxConfig)
    (htc : env.toolchain = none)
    (hcfg : config.build.bind (fun b => b.compiler) = none)
    (hCXX : env.envCXX = none) (hCC : env.envCC = none)
    (hav : ∀ s, env.available s = false) :
    get_compiler env config true = "clang++"
    ∧ get_compiler env config false = "clang" := by
  constructor <;> simp [get_compiler, htc, hcfg, hCXX, hCC, hav]

/-- Witness for C9 on a Windows-flagged environment with everything absent. -/
theorem get_compiler_fallback_witness :
    get_compiler ⟨none, none, none, fun _ => false, true⟩
        ⟨⟨"p", "0.1.0", "c++20"⟩, none, none⟩ true = "clang++"
    ∧ get_compiler ⟨none, none, none, fun _ => false, true⟩
        ⟨⟨"p", "0.1.0", "c++20"⟩, none, none⟩ false = "clang" :=
  get_compiler_fallback ⟨none, none, none, fun _ => false, true⟩
    ⟨⟨"p", "0.1.0", "c++20"⟩, none, none⟩ rfl rfl rfl rfl (fun _ => rfl)

theorem phase2_total (env : TestEnv) (l : List (Nat × Bool)) :
    (phase2 env l).total = l.length := by
  induction l with
  | nil => rfl
  | cons hd tl ih =>
    obtain ⟨i, ok⟩ := hd
    cases ok <;> simp [phase2, ih]

theorem phase2_exec (env : TestEnv) (l : List (Nat × Bool)) :
    (phase2 env l).execIndices = (l.filter (fun p => p.snd)).map Prod.fst := by
  induction l with
  | nil => rfl
  | cons hd tl ih =>
    obtain ⟨i, ok⟩ := hd
    cases ok <;> simp [phase2, ih]

theorem phase2_passed (env : TestEnv) (l : List (Nat × Bool)) :
    (phase2 env l).passed
      = (l.filter (fun p => p.snd && (env.runExit p.fst == some 0))).length := by
  induction l with
  | nil => rfl
  | cons hd tl ih =>
    obtain ⟨i, ok⟩ := hd
    cases ok
    · simp [phase2, ih]
    · by_cases hr : (env.runExit i == some 0) = true
      · simp [phase2, ih, hr]
        omega
      · simp [phase2, ih, hr]

theorem run_tests_total_eq (env : TestEnv) (entries : List DirEntry) :
    (run_tests env entries).total = (discover entries).length := by
  simp [run_tests, phase2_total]

theorem run_tests_exec_eq (env : TestEnv) (entries : List DirEntry) :
    (run_tests env entries).execIndices
      = (List.range (discover entries).length).filter (fun i => env.compiles i) := by
  simp only [run_tests, phase2_exec, List.filter_map, List.map_map]
  simp [Function.comp_def]

theorem run_tests_passed_eq (env : TestEnv) (entries : List DirEntry) :
    (run_tests env entries).passed
      = ((List.range (discover entries).length).filter
          (fun i => env.compiles i && (env.runExit i == some 0))).length := by
  simp only [run_tests, phase2_passed, List.filter_map]
  simp [Function.comp_def]

theorem filter_isExec_map_compile (l : List Nat) :
    (l.map TEvent.compileEv).filter TEvent.isExecEv = [] := by
  induction l with
  | nil => rfl
  | cons hd tl ih => simp [TEvent.isExecEv, ih]

theorem filter_isExec_map_exec (l : List Nat) :
    (l.map TEvent.execEv).filter TEvent.isExecEv = l.map TEvent.execEv := by
  induction l with
  | nil => rfl
  | cons hd tl ih => simp [TEvent.isExecEv, ih]

/-- C2 counterexample: with one discovered test that compiles and exits
nonzero, `run_tests` reports 0/1 passed yet still returns `Ok(())`
(src/src/build/test.rs line 231), i.e. the process exit status is 0; the
same happens when no test exists at all (`total = 0`).  This contradicts the
claim that the exit status is 0 exactly when `total > 0 && passed == total`. -/
theorem run_tests_exit_counterexample :
    ((run_tests ⟨fun _ => true, fun _ => some 1⟩ [⟨"t1", some "c"⟩]).exitSuccess = true)
    ∧ ¬(0 < (run_tests ⟨fun _ => true, fun _ => some 1⟩ [⟨"t1", some "c"⟩]).total
        ∧ (run_tests ⟨fun _ => true, fun _ => some 1⟩ [⟨"t1", some "c"⟩]).passed
            = (run_tests ⟨fun _ => true, fun _ => some 1⟩ [⟨"t1", some "c"⟩]).total)
    ∧ ((run_tests ⟨fun _ => true, fun _ => some 1⟩ ([] : List DirEntry)).exitSuccess = true)
    ∧ ((run_tests ⟨fun _ => true, fun _ => some 1⟩ ([] : List DirEntry)).total = 0) := by
  refine ⟨rfl, ?_, rfl, rfl⟩
  decide

/-- C2 (amended): `run_tests` returns `Ok(())` — process exit status 0 — in
every case that reaches the final summary, regardless of the tallies; the
condition `total > 0 && passed == total` governs only the `ALL TESTS PASSED`
banner of the printed summary, with `passed` and `total` as counted by the
phase 2 loop. -/
theorem run_tests_exit_and_banner (env : TestEnv) (entries : List DirEntry) :
    (run_tests env entries).exitSuccess = true
    ∧ ((run_tests env entries).banner = true ↔
        0 < (run_tests env entries).total
        ∧ (run_tests env entries).passed = (run_tests env entries).total) := by
  refine ⟨rfl, ?_⟩
  simp only [run_tests, Bool.and_eq_true, decide_eq_true_eq, beq_iff_eq]

/-- Witness for C2 (amended) at a concrete passing run: one test, compile
succeeds and exits zero, so the banner condition holds and the exit is 0. -/
theorem run_tests_exit_and_banner_witness :
    (run_tests ⟨fun _ => true, fun _ => some 0⟩ [⟨"t1", some "c"⟩]).exitSuccess = true
    ∧ ((run_tests ⟨fun _ => true, fun _ => some 0⟩ [⟨"t1", some "c"⟩]).banner = true ↔
        0 < (run_tests ⟨fun _ => true, fun _ => some 0⟩ [⟨"t1", some "c"⟩]).total
        ∧ (run_tests ⟨fun _ => true, fun _ => some 0⟩ [⟨"t1", some "c"⟩]).passed
            = (run_tests ⟨fun _ => true, fun _ => some 0⟩ [⟨"t1", some "c"⟩]).total) :=
  run_tests_exit_and_banner ⟨fun _ => true, fun _ => some 0⟩ [⟨"t1", some "c"⟩]

/-- C4: with N discovered files (recognized extensions `c`, `cpp`, `cc`,
`cxx`), phase 1 performs exactly N compile attempts, the reported `total`
equals N, the executed indices are exactly the discovery-order indices whose
compile succeeded, and a file whose compile failed is counted in `total` but
never executed. -/
theorem run_tests_counts (env : TestEnv) (entries : List DirEntry) :
    (run_tests env entries).compileAttempts = (discover entries).length
    ∧ (run_tests env entries).total = (discover entries).length
    ∧ (run_tests env entries).execIndices
        = (List.range (discover entries).length).filter (fun i => env.compiles i)
    ∧ ∀ i : Nat, env.compiles i = false → i ∉ (run_tests env entries).execIndices := by
  refine ⟨by simp [run_tests], run_tests_total_eq env entries,
    run_tests_exec_eq env entries, ?_⟩
  intro i hi hmem
  rw [run_tests_exec_eq env entries] at hmem
  have := List.of_mem_filter hmem
  rw [hi] at this
  cases this

/-- Witness for C4 on a directory with three entries of which two are
recognized (`a.c`, `b.cpp`; `c.txt` is skipped) and only the first
compiles. -/
theorem run_tests_counts_witness :
    (run_tests ⟨fun i => i == 0, fun _ => some 0⟩
        [⟨"a", some "c"⟩, ⟨"b", some "cpp"⟩, ⟨"c", some "txt"⟩]).compileAttempts = 2
    ∧ (run_tests ⟨fun i => i == 0, fun _ => some 0⟩
        [⟨"a", some "c"⟩, ⟨"b", some "cpp"⟩, ⟨"c", some "txt"⟩]).total = 2
    ∧ (run_tests ⟨fun i => i == 0, fun _ => some 0⟩
        [⟨"a", some "c"⟩, ⟨"b", some "cpp"⟩, ⟨"c", some "txt"⟩]).execIndices = [0] := by
  have h := run_tests_counts ⟨fun i => i == 0, fun _ => some 0⟩
    [⟨"a", some "c"⟩, ⟨"b", some "cpp"⟩, ⟨"c", some "txt"⟩]
  refine ⟨?_, ?_, ?_⟩
  · rw [h.1]; rfl
  · rw [h.2.1]; rfl
  · rw [h.2.2.1]; rfl

/-- C6: in the subprocess event trace of one `run_tests` call whose parallel
compiles complete in schedule order `sched` (any permutation of the
discovery indices), the trace splits into a compile-only part of length N
followed by an execution-only part — every compile is attempted before any
test binary runs; the execution events are exactly the successfully compiled
files in discovery order; and the execution part is identical for any two
schedules, so it is independent of compile completion order. -/
theorem test_phases_order (env : TestEnv) (entries : List DirEntry)
    (sched sched2 : List Nat)
    (h : sched.Perm (List.range (discover entries).length))
    (_h2 : sched2.Perm (List.range (discover entries).length)) :
    (∃ cs es : List TEvent,
        testTrace env entries sched = cs ++ es
        ∧ (∀ e ∈ cs, e.isExecEv = false)
        ∧ (∀ e ∈ es, e.isExecEv = true)
        ∧ cs.length = (discover entries).length)
    ∧ (testTrace env entries sched).filter TEvent.isExecEv
        = ((List.range (discover entries).length).filter
            (fun i => env.compiles i)).map TEvent.execEv
    ∧ (testTrace env entries sched).filter TEvent.isExecEv
        = (testTrace env entries sched2).filter TEvent.isExecEv := by
  have hfil : ∀ s : List Nat,
      (testTrace env entries s).filter TEvent.isExecEv
        = ((List.range (discover entries).length).filter
            (fun i => env.compiles i)).map TEvent.execEv := by
    intro s
    simp only [testTrace, List.filter_append, filter_isExec_map_compile,
      filter_isExec_map_exec, List.nil_append, run_tests_exec_eq]
  refine ⟨⟨sched.map TEvent.compileEv,
      (run_tests env entries).execIndices.map TEvent.execEv, rfl, ?_, ?_, ?_⟩,
    hfil sched, by rw [hfil sched, hfil sched2]⟩
  · intro e he
    obtain ⟨i, _, hei⟩ := List.mem_map.mp he
    rw [← hei]
    rfl
  · intro e he
    obtain ⟨i, _, hei⟩ := List.mem_map.mp he
    rw [← hei]
    rfl
  · rw [List.length_map, h.length_eq, List.length_range]

/-- Witness for C6 with two discovered files, compiles completing in
reversed order, only the first file compiling: the executions are
nevertheless the discovery-order successes. -/
theorem test_phases_order_witness :
    (testTrace ⟨fun i => i == 0, fun _ => some 0⟩
        [⟨"a", some "c"⟩, ⟨"b", some "cpp"⟩] [1, 0]).filter TEvent.isExecEv
      = [TEvent.execEv 0] := by
  have h := test_phases_order ⟨fun i => i == 0, fun _ => some 0⟩
    [⟨"a", some "c"⟩, ⟨"b", some "cpp"⟩] [1, 0] [0, 1] (by decide) (by decide)
  rw [h.2.1]
  rfl

theorem strStarts_std_slashI (p : String) : strStarts "-std=" ("/I" ++ p) = false := by
  cases p with | mk l => rfl

theorem strStarts_std_slashFe (p : String) : strStarts "-std=" ("/Fe" ++ p) = false := by
  cases p with | mk l => rfl

theorem strStarts_std_slashStd (p : String) : strStarts "-std=" ("/std:" ++ p) = false := by
  cases p with | mk l => rfl

theorem strStarts_slashStd_dashI (p : String) : strStarts "/std:" ("-I" ++ p) = false := by
  cases p with | mk l => rfl

theorem strStarts_slashStd_dashStd (p : String) : strStarts "/std:" ("-std=" ++ p) = false := by
  cases p with | mk l => rfl

theorem strStarts_slashStd_dashl (p : String) : strStarts "/std:" ("-l" ++ p) = false := by
  cases p with | mk l => rfl

theorem dashI_ne_EHsc (p : String) : ("-I" ++ p) ≠ "/EHsc" := by
  cases p with | mk l =>
  intro hcontra
  have h2 : ('-' :: 'I' :: l) = ('/' :: 'E' :: 'H' :: 's' :: 'c' :: []) :=
    congrArg String.data hcontra
  injection h2 with h3 _
  exact absurd h3 (by decide)

theorem dashStd_ne_EHsc (p : String) : ("-std=" ++ p) ≠ "/EHsc" := by
  cases p with | mk l =>
  intro hcontra
  have h2 : ('-' :: 's' :: 't' :: 'd' :: '=' :: l) = ('/' :: 'E' :: 'H' :: 's' :: 'c' :: []) :=
    congrArg String.data hcontra
  injection h2 with h3 _
  exact absurd h3 (by decide)

theorem dashl_ne_EHsc (p : String) : ("-l" ++ p) ≠ "/EHsc" := by
  cases p with | mk l =>
  intro hcontra
  have h2 : ('-' :: 'l' :: l) = ('/' :: 'E' :: 'H' :: 's' :: 'c' :: []) :=
    congrArg String.data hcontra
  injection h2 with h3 _
  exact absurd h3 (by decide)

/-- C5 counterexample: the user-supplied `build.cflags` of the manifest are
passed through verbatim (src/src/build/test.rs lines 110-114), so an MSVC
invocation whose manifest declares `cflags = ["-std=c++17"]` produces an
argument list that does contain a bare `-std=` token, contradicting the
claim's `never`. -/
theorem msvc_args_std_counterexample :
    isMsvcCompiler "cl" = true
    ∧ ("-std=c++17" ∈ buildTestArgs "cl" "tests/t.c" "build/tests/t" "c++20"
        [] [] ["-std=c++17"] [] [])
    ∧ strStarts "-std=" "-std=c++17" = true := by
  refine ⟨rfl, ?_, rfl⟩
  decide

/-- C5 (amended): provided the pass-through tokens (source path, output
path, dependency cflags, manifest cflags, dependency link artifacts, and the
`.lib`-suffixed manifest libraries) carry no dialect marker themselves, the
generated argument list for an MSVC compiler contains `/EHsc`, the
`/std:<edition>` token, `/Fe<path>` output, `/I<path>` for every include,
the `/link` marker directly before the library arguments (manifest libraries
suffixed `.lib`), and no token starting with a bare `-std=`; for a non-MSVC
compiler it contains `-std=<edition>`, `-o <path>`, `-I<path>` for every
include, `-l<lib>` for every manifest library, and no `/EHsc` and no
`/std:` token. -/
theorem dialect_args_amended
    (compiler path outputBin edition : String)
    (incl extra cfgC depLibs cfgLibs : List String)
    (hclean : ∀ t ∈ path :: outputBin ::
        (extra ++ cfgC ++ depLibs ++ cfgLibs.map (fun l => l ++ ".lib")),
        cleanTok t = true) :
    (isMsvcCompiler compiler = true →
        "/EHsc" ∈ buildTestArgs compiler path outputBin edition incl extra cfgC depLibs cfgLibs
        ∧ ("/std:" ++ edition) ∈ buildTestArgs compiler path outputBin edition incl extra cfgC depLibs cfgLibs
        ∧ ("/Fe" ++ outputBin) ∈ buildTestArgs compiler path outputBin edition incl extra cfgC depLibs cfgLibs
        ∧ (∀ q ∈ incl, ("/I" ++ q) ∈ buildTestArgs compiler path outputBin edition incl extra cfgC depLibs cfgLibs)
        ∧ (∃ pre, buildTestArgs compiler path outputBin edition incl extra cfgC depLibs cfgLibs
            = pre ++ "/link" :: (depLibs ++ cfgLibs.map (fun l => l ++ ".lib")))
        ∧ (∀ t ∈ buildTestArgs compiler path outputBin edition incl extra cfgC depLibs cfgLibs,
            strStarts "-std=" t = false))
    ∧ (isMsvcCompiler compiler = false →
        ("-std=" ++ edition) ∈ buildTestArgs compiler path outputBin edition incl extra cfgC depLibs cfgLibs
        ∧ "-o" ∈ buildTestArgs compiler path outputBin edition incl extra cfgC depLibs cfgLibs
        ∧ outputBin ∈ buildTestArgs compiler path outputBin edition incl extra cfgC depLibs cfgLibs
        ∧ (∀ q ∈ incl, ("-I" ++ q) ∈ buildTestArgs compiler path outputBin edition incl extra cfgC depLibs cfgLibs)
        ∧ (∀ l ∈ cfgLibs, ("-l" ++ l) ∈ buildTestArgs compiler path outputBin edition incl extra cfgC depLibs cfgLibs)
        ∧ (∀ t ∈ buildTestArgs compiler path outputBin edition incl extra cfgC depLibs cfgLibs,
            t ≠ "/EHsc" ∧ strStarts "/std:" t = false)) := by
  have hPath := cleanTok_split path (hclean path (List.mem_cons_self _ _))
  have hOut := cleanTok_split outputBin
    (hclean outputBin (List.mem_cons_of_mem _ (List.mem_cons_self _ _)))
  have hExtra : ∀ t ∈ extra,
      strStarts "-std=" t = false ∧ t ≠ "/EHsc" ∧ strStarts "/std:" t = false :=
    fun t ht => cleanTok_split t (hclean t (List.mem_cons_of_mem _
      (List.mem_cons_of_mem _ (List.mem_append.mpr (Or.inl (List.mem_append.mpr
        (Or.inl (List.mem_append.mpr (Or.inl ht)))))))))
  have hCfgC : ∀ t ∈ cfgC,
      strStarts "-std=" t = false ∧ t ≠ "/EHsc" ∧ strStarts "/std:" t = false :=
    fun t ht => cleanTok_split t (hclean t (List.mem_cons_of_mem _
      (List.mem_cons_of_mem _ (List.mem_append.mpr (Or.inl (List.mem_append.mpr
        (Or.inl (List.mem_append.mpr (Or.inr ht)))))))))
  have hDepLibs : ∀ t ∈ depLibs,
      strStarts "-std=" t = false ∧ t ≠ "/EHsc" ∧ strStarts "/std:" t = false :=
    fun t ht => cleanTok_split t (hclean t (List.mem_cons_of_mem _
      (List.mem_cons_of_mem _ (List.mem_append.mpr (Or.inl (List.mem_append.mpr
        (Or.inr ht)))))))
  have hLibsLib : ∀ l ∈ cfgLibs,
      strStarts "-std=" (l ++ ".lib") = false ∧ (l ++ ".lib") ≠ "/EHsc"
        ∧ strStarts "/std:" (l ++ ".lib") = false :=
    fun l hl => cleanTok_split _ (hclean _ (List.mem_cons_of_mem _
      (List.mem_cons_of_mem _ (List.mem_append.mpr (Or.inr
        (List.mem_map_of_mem _ hl))))))
  constructor
  · intro hM
    have hargs : buildTestArgs compiler path outputBin edition incl extra cfgC depLibs cfgLibs
        = "/nologo" :: "/EHsc" :: path :: ("/Fe" ++ outputBin) :: ("/std:" ++ edition) ::
          (incl.map (fun p => "/I" ++ p) ++ extra ++ cfgC
            ++ "/link" :: (depLibs ++ cfgLibs.map (fun l => l ++ ".lib"))) := by
      simp [buildTestArgs, hM]
    rw [hargs]
    refine ⟨by simp, by simp, by simp, ?_, ?_, ?_⟩
    · intro q hq
      have h1 : ("/I" ++ q) ∈ incl.map (fun p => "/I" ++ p) := List.mem_map_of_mem _ hq
      simp only [List.mem_cons, List.mem_append]
      exact Or.inr (Or.inr (Or.inr (Or.inr (Or.inr (Or.inl (Or.inl (Or.inl h1)))))))
    · exact ⟨"/nologo" :: "/EHsc" :: path :: ("/Fe" ++ outputBin) :: ("/std:" ++ edition) ::
        (incl.map (fun p => "/I" ++ p) ++ extra ++ cfgC), by simp⟩
    · simp only [List.forall_mem_cons, List.forall_mem_append, List.forall_mem_map]
      refine ⟨by rfl, by rfl, hPath.1, strStarts_std_slashFe outputBin,
        strStarts_std_slashStd edition,
        ⟨⟨fun q _ => strStarts_std_slashI q, fun t ht => (hExtra t ht).1⟩,
          fun t ht => (hCfgC t ht).1⟩,
        by rfl, fun t ht => (hDepLibs t ht).1, fun l hl => (hLibsLib l hl).1⟩
  · intro hM
    have hargs : buildTestArgs compiler path outputBin edition incl extra cfgC depLibs cfgLibs
        = path :: "-o" :: outputBin :: ("-std=" ++ edition) ::
          (incl.map (fun p => "-I" ++ p) ++ extra ++ cfgC
            ++ depLibs ++ cfgLibs.map (fun l => "-l" ++ l)) := by
      simp [buildTestArgs, hM]
    rw [hargs]
    refine ⟨by simp, by simp, by simp, ?_, ?_, ?_⟩
    · intro q hq
      have h1 : ("-I" ++ q) ∈ incl.map (fun p => "-I" ++ p) := List.mem_map_of_mem _ hq
      simp only [List.mem_cons, List.mem_append]
      exact Or.inr (Or.inr (Or.inr (Or.inr (Or.inl (Or.inl (Or.inl (Or.inl h1)))))))
    · intro l hl
      have h1 : ("-l" ++ l) ∈ cfgLibs.map (fun x => "-l" ++ x) := List.mem_map_of_mem _ hl
      simp only [List.mem_cons, List.mem_append]
      exact Or.inr (Or.inr (Or.inr (Or.inr (Or.inr h1))))
    · simp only [List.forall_mem_cons, List.forall_mem_append, List.forall_mem_map]
      refine ⟨⟨hPath.2.1, hPath.2.2⟩, ⟨by decide, by rfl⟩,
        ⟨hOut.2.1, hOut.2.2⟩,
        ⟨dashStd_ne_EHsc edition, strStarts_slashStd_dashStd edition⟩,
        ⟨⟨⟨⟨fun q _ => ⟨dashI_ne_EHsc q, strStarts_slashStd_dashI q⟩,
              fun t ht => ⟨(hExtra t ht).2.1, (hExtra t ht).2.2⟩⟩,
            fun t ht => ⟨(hCfgC t ht).2.1, (hCfgC t ht).2.2⟩⟩,
          fun t ht => ⟨(hDepLibs t ht).2.1, (hDepLibs t ht).2.2⟩⟩,
         fun l _ => ⟨dashl_ne_EHsc l, strStarts_slashStd_dashl l⟩⟩⟩

/-- Witness for C5 (amended) on concrete MSVC and Clang invocations over a
clean flag set. -/
theorem dialect_args_amended_witness :
    "/EHsc" ∈ buildTestArgs "cl" "tests/t.c" "build/tests/t" "c++20"
        ["~/.cx/cache/foo"] [] [] [] ["m"]
    ∧ ("-std=" ++ "c++20") ∈ buildTestArgs "clang++" "tests/t.c" "build/tests/t" "c++20"
        ["~/.cx/cache/foo"] [] [] [] ["m"] := by
  have h1 := dialect_args_amended "cl" "tests/t.c" "build/tests/t" "c++20"
    ["~/.cx/cache/foo"] [] [] [] ["m"] (by decide)
  have h2 := dialect_args_amended "clang++" "tests/t.c" "build/tests/t" "c++20"
    ["~/.cx/cache/foo"] [] [] [] ["m"] (by decide)
  exact ⟨(h1.1 (by decide)).1, (h2.2 (by decide)).1⟩

theorem takeWhile_append_sing_false (p : Char → Bool) (y : Char)
    (hy : p y = false) (xs : List Char) :
    List.takeWhile p (xs ++ [y]) = List.takeWhile p xs := by
  induction xs with
  | nil => simp [List.takeWhile, hy]
  | cons x xs ih =>
    cases hpx : p x <;> simp [List.takeWhile_cons, hpx, ih]

theorem takeWhile_append_of_exists_false (p : Char → Bool) (xs ys : List Char)
    (h : ∃ x ∈ xs, p x = false) :
    List.takeWhile p (xs ++ ys) = List.takeWhile p xs := by
  induction xs with
  | nil =>
    obtain ⟨x, hx, _⟩ := h
    cases hx
  | cons x xs ih =>
    cases hpx : p x with
    | false => simp [List.takeWhile_cons, hpx]
    | true =>
      obtain ⟨z, hz, hpz⟩ := h
      rcases List.mem_cons.mp hz with rfl | hz2
      · rw [hpz] at hpx
        cases hpx
      · simp [List.takeWhile_cons, hpx, ih ⟨z, hz2, hpz⟩]

theorem takeWhile_all_true (p : Char → Bool) (xs : List Char)
    (h : ∀ x ∈ xs, p x = true) :
    List.takeWhile p xs = xs := by
  induction xs with
  | nil => rfl
  | cons x xs ih =>
    simp [List.takeWhile_cons, h x (List.mem_cons_self _ _),
      ih (fun z hz => h z (List.mem_cons_of_mem _ hz))]

theorem splitCharList_ne_nil (c : Char) (l : List Char) :
    splitCharList c l ≠ [] := by
  induction l with
  | nil => simp [splitCharList]
  | cons a as ih =>
    simp only [splitCharList]
    cases ha : (a == c)
    · simp only [Bool.false_eq_true, if_false]
      rcases hr : splitCharList c as with _ | ⟨h, t⟩
      · exact absurd hr ih
      · simp
    · simp

theorem splitCharList_no_sep (c : Char) (l : List Char) (h : c ∉ l) :
    splitCharList c l = [l] := by
  induction l with
  | nil => rfl
  | cons a as ih =>
    have ha : (a == c) = false := by
      rw [beq_eq_false_iff_ne]
      intro he
      subst he
      exact h (List.mem_cons_self _ _)
    have has : c ∉ as := fun hm => h (List.mem_cons_of_mem _ hm)
    simp [splitCharList, ha, ih has]

theorem splitCharList_sep_shape (c : Char) (l : List Char) (h : c ∈ l) :
    ∃ hh t, splitCharList c l = hh :: t ∧ t ≠ [] := by
  induction l with
  | nil => cases h
  | cons a as ih =>
    cases ha : (a == c)
    · have ha2 : ¬(a = c) := by
        intro he
        rw [he] at ha
        simp at ha
      have hc2 : c ∈ as := by
        rcases List.mem_cons.mp h with he | hm
        · exact absurd he.symm ha2
        · exact hm
      obtain ⟨hh, t, hspl, htne⟩ := ih hc2
      refine ⟨a :: hh, t, ?_, htne⟩
      simp only [splitCharList, ha, Bool.false_eq_true, if_false, hspl]
    · refine ⟨[], splitCharList c as, ?_, splitCharList_ne_nil c as⟩
      simp only [splitCharList, ha, if_true]

theorem getLast_splitCharList (c : Char) (l : List Char) :
    (splitCharList c l).getLast?
      = some ((l.reverse.takeWhile (fun a => !(a == c))).reverse) := by
  induction l with
  | nil => rfl
  | cons a as ih =>
    cases ha : (a == c)
    · have hpa : (fun x => !(x == c)) a = true := by simp [ha]
      by_cases hc2 : c ∈ as
      · obtain ⟨hh, t, hspl, htne⟩ := splitCharList_sep_shape c as hc2
        rcases t with _ | ⟨t1, ts⟩
        · exact absurd rfl htne
        · have hlhs : (splitCharList c (a :: as)).getLast? = (splitCharList c as).getLast? := by
            simp only [splitCharList, ha, Bool.false_eq_true, if_false, hspl]
            rw [List.getLast?_cons_cons, List.getLast?_cons_cons]
          rw [hlhs, ih]
          have hex : ∃ x ∈ as.reverse, (fun z => !(z == c)) x = false := by
            refine ⟨c, List.mem_reverse.mpr hc2, by simp⟩
          simp only [List.reverse_cons,
            takeWhile_append_of_exists_false _ _ [a] hex]
      · have hspl := splitCharList_no_sep c as hc2
        have hlhs : (splitCharList c (a :: as)).getLast? = some (a :: as) := by
          simp only [splitCharList, ha, Bool.false_eq_true, if_false, hspl]
          rfl
        rw [hlhs]
        have hall : ∀ x ∈ as.reverse ++ [a], (fun z => !(z == c)) x = true := by
          intro x hx
          rcases List.mem_append.mp hx with hx2 | hx2
          · have hx3 : x ∈ as := List.mem_reverse.mp hx2
            simp only [Bool.not_eq_true']
            rw [beq_eq_false_iff_ne]
            intro he
            subst he
            exact hc2 hx3
          · rcases List.mem_cons.mp hx2 with rfl | hx3
            · exact hpa
            · cases hx3
        simp only [List.reverse_cons, takeWhile_all_true _ _ hall,
          List.reverse_append, List.reverse_reverse]
        rfl
    · have heq : a = c := by
        rw [beq_iff_eq] at ha
        exact ha
      subst heq
      obtain ⟨rh, rt, hspl⟩ :
          ∃ rh rt, splitCharList a as = rh :: rt := by
        rcases hr : splitCharList a as with _ | ⟨rh, rt⟩
        · exact absurd hr (splitCharList_ne_nil a as)
        · exact ⟨rh, rt, rfl⟩
      have hlhs : (splitCharList a (a :: as)).getLast? = (splitCharList a as).getLast? := by
        simp only [splitCharList, beq_self_eq_true, if_true, hspl]
        rw [List.getLast?_cons_cons]
      rw [hlhs, ih]
      have hpa : (fun z => !(z == a)) a = false := by simp
      simp only [List.reverse_cons,
        takeWhile_append_sing_false (fun z => !(z == a)) a hpa]

theorem deriveName_eq_specDerivedName (s : String) :
    deriveName s = specDerivedName s := by
  unfold deriveName specDerivedName
  rw [getLast_splitCharList]
  rfl

/-- C10: for every `cx add` identifier containing `http` or `git@`, the
derived dependency name is the substring after the last `/` with every
occurrence of `.git` removed (`str::replace` removes all occurrences, not
just a trailing suffix), and the identifier itself is kept as the URL; in
particular an identifier ending in `/a.github.io` derives the name
`ahub.io`. -/
theorem derive_name_spec :
    (∀ s : String, (strContains s "http" || strContains s "git@") = true →
        parseAddInput s = some (specDerivedName s, s))
    ∧ parseAddInput "https://example.com/a.github.io"
        = some ("ahub.io", "https://example.com/a.github.io") := by
  constructor
  · intro s h
    simp only [parseAddInput, h, if_true, deriveName_eq_specDerivedName]
  · decide

/-- Witness for C10 on an scp-style git URL: the name is the last path
segment with `.git` removed. -/
theorem derive_name_spec_witness :
    parseAddInput "git@github.com:user/repo.git"
      = some (specDerivedName "git@github.com:user/repo.git",
          "git@github.com:user/repo.git") :=
  derive_name_spec.1 "git@github.com:user/repo.git" (by decide)

end Caxe
